import Mathlib

/-!
Shallow embedding of the AFC-Klipper-Add-On AMS override loader
(file `extras/AFC_AMS.py`).

The Python module, at import time, replaces a fixed ordered list of plugin
modules with AMS-aware implementations loaded from a bundle directory
(`BUNDLE_ROOT`), registering each in the process-wide module registry
`sys.modules`, and finally re-exports the patched `extras.AFC.load_config`.

The embedding makes the mutable world explicit:
  - module objects live in a heap indexed by fresh numeric ids (Python object
    identity), so frame properties about "the old module object is not
    mutated" are expressible;
  - `sys.modules` is an association list from logical names to heap ids;
  - an event trace records the order of resolution, existence checks,
    registration and module-body execution, so sequencing claims are
    expressible;
  - the filesystem and the dynamic-loading machinery (whether
    `spec_from_loader` succeeds, whether executing a module body succeeds and
    what `load_config` function that body defines) are parameters in an
    environment record, since they are outside the fragment.

Paths are strings; `pathlib`'s `/` join is string concatenation with "/".
Configuration objects and `load_config` results are modelled as natural
numbers (they are opaque to the loader, which only forwards them).
-/

namespace AFCAMS

/-- First-match lookup in an association list.  Python dict reads
(`sys.modules[name]`, attribute lookup on the heap) are modelled with this;
writes prepend, so the most recent binding shadows older ones, matching
dict overwrite semantics observably. -/
def aLookup {κ α : Type} [DecidableEq κ] (k : κ) : List (κ × α) → Option α
  | [] => none
  | (k₂, v) :: rest => if k = k₂ then some v else aLookup k rest

/-- Does the pattern occur as a contiguous run inside the list? -/
def occursIn (pat : List Char) : List Char → Bool
  | [] => pat.isEmpty
  | c :: t => pat.isPrefixOf (c :: t) || occursIn pat t

/-- Substring test on strings: does the second string occur inside the first? -/
def strContains (s pat : String) : Bool :=
  occursIn pat.toList s.toList

/-- A module object: its `__name__`, the path it was loaded from
(`__file__` provenance), whether its body ran to completion, and the
`load_config` attribute its body defined (absent before/without execution). -/
structure ModuleData where
  name : String
  file : String
  executed : Bool
  load_config_fn : Option (Nat → Nat)

/-- Observable events of the loader, in execution order. -/
inductive Ev where
  | resolve (name : String)
  | checkExists (path : String)
  | register (name : String) (mid : Nat)
  | execStart (name : String)
  | execDone (name : String)
  deriving DecidableEq, Repr

/-- The mutable world: the heap of module objects (id to data), the
process-wide registry `sys.modules` (name to id), the fresh-id counter,
and the event trace. -/
structure St where
  heap : List (Nat × ModuleData)
  sysModules : List (String × Nat)
  nextId : Nat
  trace : List Ev

/-- The world at process start: empty registry, empty heap. -/
def St.empty : St := ⟨[], [], 0, []⟩

/-- The parts of the world outside this fragment: the bundle directory
location, which files exist, whether `spec_from_loader` yields a spec for a
given name and path, whether executing the source at a path succeeds, the
exception message when it does not, and the `load_config` function the
executed body defines (if any). -/
structure Env where
  bundleRoot : String
  fileExists : String → Bool
  specOk : String → String → Bool
  execOk : String → String → Bool
  execErr : String → String → String
  moduleDef : String → String → Option (Nat → Nat)

/-- Python `s.split(sep, 1)`: at most one split, at the first occurrence of
the separator. -/
def pySplit1 (s : String) (sep : Char) : List String :=
  let cs := s.toList
  if cs.contains sep then
    [String.mk (cs.takeWhile (fun c => c ≠ sep)),
     String.mk ((cs.dropWhile (fun c => c ≠ sep)).tail)]
  else
    [s]

/-- `_module_filename` from the source: index 1 of `module_name.split('.', 1)`
joined under the bundle root with the `.py` extension.  The indexing is
partial (Python raises IndexError when the name has no dot), modelled with
`Option`. -/
def _module_filename (bundleRoot : String) (module_name : String) : Option String :=
  match (pySplit1 module_name '.')[1]? with
  | none => none
  | some short_name => some (bundleRoot ++ "/" ++ short_name ++ ".py")

/-- `_MODULE_ORDER` from the source: the fixed override manifest. -/
def _MODULE_ORDER : List String :=
  ["extras.AFC_utils",
   "extras.AFC_functions",
   "extras.AFC_logger",
   "extras.AFC_spool",
   "extras.AFC_buffer",
   "extras.AFC_extruder",
   "extras.AFC_prep",
   "extras.AFC_unit",
   "extras.AFC_lane",
   "extras.AFC_hub",
   "extras.AFC_BoxTurtle",
   "extras.AFC",
   "extras.AFC_error"]

/-- `_load_module` from the source: build a spec from the loader (failing
with an ImportError naming module and path if the facility yields none),
create the module object, register it in `sys.modules`, then execute its
body.  Registration happens before execution; an execution failure
propagates without rolling the registration back. -/
def _load_module (env : Env) (name : String) (path : String) (st : St) :
    Except String Nat × St :=
  if env.specOk name path then
    let mid := st.nextId
    let module : ModuleData :=
      { name := name, file := path, executed := false, load_config_fn := none }
    let st₁ : St :=
      { heap := (mid, module) :: st.heap,
        sysModules := (name, mid) :: st.sysModules,
        nextId := mid + 1,
        trace := st.trace ++ [Ev.register name mid, Ev.execStart name] }
    if env.execOk name path then
      (Except.ok mid,
       { st₁ with
           heap := (mid, { module with
                             executed := true,
                             load_config_fn := env.moduleDef name path }) :: st₁.heap,
           trace := st₁.trace ++ [Ev.execDone name] })
    else
      (Except.error (env.execErr name path), st₁)
  else
    (Except.error ("Unable to create spec for " ++ name ++ " from " ++ path), st)

/-- `_load_ams_modules` from the source: iterate the manifest in order; for
each name resolve the bundle path (an IndexError from the dotless case
propagates), raise an ImportError naming the module and the expected path
when the file is missing, otherwise load and register, collecting the
loaded modules in order. -/
def _load_ams_modules (env : Env) :
    List String → St → Except String (List (String × Nat)) × St
  | [], st => (Except.ok [], st)
  | module_name :: rest, st =>
    let st₀ : St := { st with trace := st.trace ++ [Ev.resolve module_name] }
    match _module_filename env.bundleRoot module_name with
    | none => (Except.error "list index out of range", st₀)
    | some module_path =>
      let st₁ : St := { st₀ with trace := st₀.trace ++ [Ev.checkExists module_path] }
      if env.fileExists module_path then
        match _load_module env module_name module_path st₁ with
        | (Except.ok mid, st₂) =>
          match _load_ams_modules env rest st₂ with
          | (Except.ok loadedRest, st₃) =>
            (Except.ok ((module_name, mid) :: loadedRest), st₃)
          | (Except.error e, st₃) => (Except.error e, st₃)
        | (Except.error e, st₂) => (Except.error e, st₂)
      else
        (Except.error ("Missing AMS override for " ++ module_name ++
                       " at " ++ module_path), st₁)

/-- The import-time statement `_AMS_MODULES = _load_ams_modules(_MODULE_ORDER)`. -/
def _AMS_MODULES (env : Env) (st : St) : Except String (List (String × Nat)) × St :=
  _load_ams_modules env _MODULE_ORDER st

/-- The statement `from extras.AFC import load_config as _ams_load_config`,
executed after the overrides are registered: it resolves the already
registered module object for that name in `sys.modules` and takes its
`load_config` attribute.  `none` models the ImportError/AttributeError
cases. -/
def _ams_load_config (env : Env) (st : St) : Option (Nat → Nat) :=
  let st₁ := (_AMS_MODULES env st).2
  match aLookup "extras.AFC" st₁.sysModules with
  | none => none
  | some mid =>
    match aLookup mid st₁.heap with
    | none => none
    | some md => md.load_config_fn

/-- The exported `load_config` proxy: it forwards its single argument to
`_ams_load_config` and returns the result verbatim (wrapped in `Option`
because the proxy only exists once the import resolved). -/
def load_config (env : Env) (st : St) (config : Nat) : Option Nat :=
  (_ams_load_config env st).map (fun f => f config)

/-- Success test for a loader outcome. -/
def isOkE {α : Type} : Except String α → Bool
  | Except.ok _ => true
  | Except.error _ => false

/-- An entry loads cleanly in a given environment: its path resolves, the
file exists, a spec can be built and the body executes without raising. -/
def goodEntry (env : Env) (name : String) : Bool :=
  match _module_filename env.bundleRoot name with
  | none => false
  | some p => env.fileExists p && env.specOk name p && env.execOk name p

/-- The events a cleanly loading entry contributes, given the id its module
object is allocated at. -/
def entryEvents (env : Env) (name : String) (mid : Nat) : List Ev :=
  match _module_filename env.bundleRoot name with
  | none => []
  | some p =>
    [Ev.resolve name, Ev.checkExists p, Ev.register name mid,
     Ev.execStart name, Ev.execDone name]

/-- The full event block of a cleanly loading run, with ids allocated
consecutively from the given base. -/
def eventsFor (env : Env) : Nat → List String → List Ev
  | _, [] => []
  | base, n :: rest => entryEvents env n base ++ eventsFor env (base + 1) rest

/-- The world after one manifest entry loads cleanly from path p: the module
object is allocated at the old fresh id, registered, and its body executed
(the post-execution object shadows the pre-execution one at the same id,
modelling in-place mutation of that one object). -/
def afterLoad (env : Env) (n p : String) (st : St) : St :=
  { heap := (st.nextId,
               { name := n, file := p, executed := true,
                 load_config_fn := env.moduleDef n p }) ::
            (st.nextId,
               { name := n, file := p, executed := false,
                 load_config_fn := none }) :: st.heap,
    sysModules := (n, st.nextId) :: st.sysModules,
    nextId := st.nextId + 1,
    trace := st.trace ++ [Ev.resolve n, Ev.checkExists p,
                          Ev.register n st.nextId, Ev.execStart n, Ev.execDone n] }

/-- The world after a manifest entry whose body execution raised: the fresh
module object is registered but never marked executed (no rollback). -/
def afterLoadFail (env : Env) (n p : String) (st : St) : St :=
  { heap := (st.nextId,
               { name := n, file := p, executed := false,
                 load_config_fn := none }) :: st.heap,
    sysModules := (n, st.nextId) :: st.sysModules,
    nextId := st.nextId + 1,
    trace := st.trace ++ [Ev.resolve n, Ev.checkExists p,
                          Ev.register n st.nextId, Ev.execStart n] }

/-- A concrete well-behaved environment: every file exists, every spec is
built, every body executes; the bundled primary module defines
load_config c = 2 * c, every other module the identity. -/
def env₀ : Env :=
  { bundleRoot := "/bundle",
    fileExists := fun _ => true,
    specOk := fun _ _ => true,
    execOk := fun _ _ => true,
    execErr := fun _ _ => "boom",
    moduleDef := fun n _ =>
      if n = "extras.AFC" then some (fun c => 2 * c) else some (fun c => c) }

/-- env₀ with the bundled file for the primary module missing. -/
def envMissing : Env :=
  { env₀ with fileExists := fun q => !(q == "/bundle/AFC.py") }

/-- env₀ with the spec-construction facility always failing. -/
def envSpecFail : Env :=
  { env₀ with specOk := fun _ _ => false }

/-- env₀ with every module-body execution raising. -/
def envExecFail : Env :=
  { env₀ with execOk := fun _ _ => false }

/-- A world that already holds a module registered for the primary logical
name, loaded from its original on-disk location. -/
def stPre : St :=
  { heap := [(0, { name := "extras.AFC", file := "/orig/extras/AFC.py",
                   executed := true, load_config_fn := some (fun c => c) })],
    sysModules := [("extras.AFC", 0)],
    nextId := 1,
    trace := [] }

theorem aLookup_cons_self {κ α : Type} [DecidableEq κ] (k : κ) (v : α)
    (l : List (κ × α)) : aLookup k ((k, v) :: l) = some v := by
  simp [aLookup]

theorem aLookup_cons_ne {κ α : Type} [DecidableEq κ] (k k₂ : κ) (v : α)
    (l : List (κ × α)) (h : k ≠ k₂) : aLookup k ((k₂, v) :: l) = aLookup k l := by
  simp [aLookup, h]

theorem load_module_specFalse (env : Env) (name path : String) (st : St)
    (hs : env.specOk name path = false) :
    _load_module env name path st =
      (Except.error ("Unable to create spec for " ++ name ++ " from " ++ path), st) := by
  simp [_load_module, hs]

theorem load_module_execFalse (env : Env) (name path : String) (st : St)
    (hs : env.specOk name path = true) (he : env.execOk name path = false) :
    _load_module env name path st =
      (Except.error (env.execErr name path),
       { heap := (st.nextId, { name := name, file := path, executed := false,
                               load_config_fn := none }) :: st.heap,
         sysModules := (name, st.nextId) :: st.sysModules,
         nextId := st.nextId + 1,
         trace := st.trace ++ [Ev.register name st.nextId, Ev.execStart name] }) := by
  simp [_load_module, hs, he]

theorem load_module_ok (env : Env) (name path : String) (st : St)
    (hs : env.specOk name path = true) (he : env.execOk name path = true) :
    _load_module env name path st =
      (Except.ok st.nextId,
       { heap := (st.nextId, { name := name, file := path, executed := true,
                               load_config_fn := env.moduleDef name path }) ::
                 (st.nextId, { name := name, file := path, executed := false,
                               load_config_fn := none }) :: st.heap,
         sysModules := (name, st.nextId) :: st.sysModules,
         nextId := st.nextId + 1,
         trace := st.trace ++ [Ev.register name st.nextId, Ev.execStart name,
                               Ev.execDone name] }) := by
  simp [_load_module, hs, he]

theorem load_ams_nil (env : Env) (st : St) :
    _load_ams_modules env [] st = (Except.ok [], st) := rfl

theorem load_ams_cons_noDot (env : Env) (n : String) (rest : List String) (st : St)
    (hmf : _module_filename env.bundleRoot n = none) :
    _load_ams_modules env (n :: rest) st =
      (Except.error "list index out of range",
       { st with trace := st.trace ++ [Ev.resolve n] }) := by
  simp only [_load_ams_modules]
  rw [hmf]

theorem load_ams_cons_missing (env : Env) (n p : String) (rest : List String) (st : St)
    (hmf : _module_filename env.bundleRoot n = some p)
    (hex : env.fileExists p = false) :
    _load_ams_modules env (n :: rest) st =
      (Except.error ("Missing AMS override for " ++ n ++ " at " ++ p),
       { st with trace := st.trace ++ [Ev.resolve n, Ev.checkExists p] }) := by
  simp only [_load_ams_modules]
  rw [hmf]
  simp [hex]

theorem load_ams_cons_specFalse (env : Env) (n p : String) (rest : List String) (st : St)
    (hmf : _module_filename env.bundleRoot n = some p)
    (hex : env.fileExists p = true) (hs : env.specOk n p = false) :
    _load_ams_modules env (n :: rest) st =
      (Except.error ("Unable to create spec for " ++ n ++ " from " ++ p),
       { st with trace := st.trace ++ [Ev.resolve n, Ev.checkExists p] }) := by
  simp only [_load_ams_modules]
  rw [hmf]
  simp [hex, _load_module, hs]

theorem load_ams_cons_execFalse (env : Env) (n p : String) (rest : List String) (st : St)
    (hmf : _module_filename env.bundleRoot n = some p)
    (hex : env.fileExists p = true) (hs : env.specOk n p = true)
    (he : env.execOk n p = false) :
    _load_ams_modules env (n :: rest) st =
      (Except.error (env.execErr n p), afterLoadFail env n p st) := by
  simp only [_load_ams_modules]
  rw [hmf]
  simp [hex, _load_module, hs, he, afterLoadFail]

theorem load_ams_cons_good (env : Env) (n p : String) (rest : List String) (st : St)
    (hmf : _module_filename env.bundleRoot n = some p)
    (hex : env.fileExists p = true) (hs : env.specOk n p = true)
    (he : env.execOk n p = true) :
    _load_ams_modules env (n :: rest) st =
      ((_load_ams_modules env rest (afterLoad env n p st)).1.map
         (fun l => (n, st.nextId) :: l),
       (_load_ams_modules env rest (afterLoad env n p st)).2) := by
  rcases hr : _load_ams_modules env rest (afterLoad env n p st) with ⟨r, st₃⟩
  have h₂ := hr
  simp only [afterLoad, List.append_assoc, List.cons_append, List.nil_append,
             List.singleton_append] at h₂
  cases r with
  | ok l₂ =>
    simp only [_load_ams_modules]
    rw [hmf]
    simp only [hex, if_true]
    rw [load_module_ok env n p _ hs he]
    simp [h₂, hr, Except.map, List.append_assoc]
  | error e =>
    simp only [_load_ams_modules]
    rw [hmf]
    simp only [hex, if_true]
    rw [load_module_ok env n p _ hs he]
    simp [h₂, hr, Except.map, List.append_assoc]

theorem isOkE_ex {α : Type} (r : Except String α) (h : isOkE r = true) :
    ∃ a, r = Except.ok a := by
  cases r with
  | ok a => exact ⟨a, rfl⟩
  | error e => simp [isOkE] at h

theorem isOkE_map {α β : Type} (f : α → β) (r : Except String α) :
    isOkE (Except.map f r) = isOkE r := by
  cases r <;> rfl

/-- Inversion of a successful load of a nonempty manifest: the head entry
must resolve, exist, build a spec and execute, and the tail runs from the
post-load world. -/
theorem load_ams_cons_ok_inv (env : Env) (n : String) (rest : List String)
    (st : St) (l : List (String × Nat)) (st₂ : St)
    (h : _load_ams_modules env (n :: rest) st = (Except.ok l, st₂)) :
    ∃ p l₂, _module_filename env.bundleRoot n = some p ∧
      env.fileExists p = true ∧ env.specOk n p = true ∧ env.execOk n p = true ∧
      l = (n, st.nextId) :: l₂ ∧
      _load_ams_modules env rest (afterLoad env n p st) = (Except.ok l₂, st₂) := by
  rcases hmf : _module_filename env.bundleRoot n with _ | p
  · rw [load_ams_cons_noDot env n rest st hmf] at h
    simp at h
  · cases hex : env.fileExists p with
    | false =>
      rw [load_ams_cons_missing env n p rest st hmf hex] at h
      simp at h
    | true =>
      cases hs : env.specOk n p with
      | false =>
        rw [load_ams_cons_specFalse env n p rest st hmf hex hs] at h
        simp at h
      | true =>
        cases he : env.execOk n p with
        | false =>
          rw [load_ams_cons_execFalse env n p rest st hmf hex hs he] at h
          simp at h
        | true =>
          rw [load_ams_cons_good env n p rest st hmf hex hs he] at h
          rcases hr : _load_ams_modules env rest (afterLoad env n p st) with ⟨r, st₃⟩
          rw [hr] at h
          cases r with
          | error e => simp [Except.map] at h
          | ok l₂ =>
            simp [Except.map] at h
            exact ⟨p, l₂, rfl, hex, hs, he, h.1.symm, h.2 ▸ hr⟩

/-- Success of a run depends only on the environment and the manifest: it
holds exactly when every entry loads cleanly. -/
theorem load_ams_ok_iff (env : Env) (names : List String) : ∀ st : St,
    isOkE (_load_ams_modules env names st).1 = true ↔
      ∀ n ∈ names, goodEntry env n = true := by
  induction names with
  | nil =>
    intro st
    simp [load_ams_nil, isOkE]
  | cons n rest ih =>
    intro st
    constructor
    · intro h
      obtain ⟨l, hl⟩ := isOkE_ex _ h
      have hpair : _load_ams_modules env (n :: rest) st =
          (Except.ok l, (_load_ams_modules env (n :: rest) st).2) := by
        rw [← hl]
      obtain ⟨p, l₂, hmf, hex, hs, he, _, hrest⟩ :=
        load_ams_cons_ok_inv env n rest st l _ hpair
      intro x hx
      rcases List.mem_cons.mp hx with rfl | hx₂
      · simp [goodEntry, hmf, hex, hs, he]
      · have : isOkE (_load_ams_modules env rest (afterLoad env n p st)).1 = true := by
          rw [hrest]
          rfl
        exact (ih (afterLoad env n p st)).mp this x hx₂
    · intro h
      have hn : goodEntry env n = true := h n (List.mem_cons_self n rest)
      rcases hmf : _module_filename env.bundleRoot n with _ | p
      · rw [goodEntry, hmf] at hn
        simp at hn
      · rw [goodEntry, hmf] at hn
        simp only [Bool.and_eq_true] at hn
        obtain ⟨⟨hex, hs⟩, he⟩ := hn
        rw [load_ams_cons_good env n p rest st hmf hex hs he]
        simp only [isOkE_map]
        exact (ih (afterLoad env n p st)).mpr (fun x hx => h x (List.mem_cons_of_mem n hx))

/-- Frame property of a run, for every outcome: the fresh-id counter never
decreases, registry bindings of names outside the manifest are untouched,
heap cells allocated before the run are untouched, and the trace only
grows. -/
theorem load_ams_frame (env : Env) (names : List String) : ∀ st : St,
    st.nextId ≤ ((_load_ams_modules env names st).2).nextId ∧
    (∀ n, n ∉ names →
      aLookup n ((_load_ams_modules env names st).2).sysModules =
        aLookup n st.sysModules) ∧
    (∀ i, i < st.nextId →
      aLookup i ((_load_ams_modules env names st).2).heap = aLookup i st.heap) ∧
    ∃ tr, ((_load_ams_modules env names st).2).trace = st.trace ++ tr := by
  induction names with
  | nil =>
    intro st
    exact ⟨Nat.le_refl _, fun n _ => rfl, fun i _ => rfl, [], by simp [load_ams_nil]⟩
  | cons n rest ih =>
    intro st
    rcases hmf : _module_filename env.bundleRoot n with _ | p
    · rw [load_ams_cons_noDot env n rest st hmf]
      exact ⟨Nat.le_refl _, fun n _ => rfl, fun i _ => rfl, [Ev.resolve n], rfl⟩
    · cases hex : env.fileExists p with
      | false =>
        rw [load_ams_cons_missing env n p rest st hmf hex]
        exact ⟨Nat.le_refl _, fun n _ => rfl, fun i _ => rfl,
               [Ev.resolve n, Ev.checkExists p], rfl⟩
      | true =>
        cases hs : env.specOk n p with
        | false =>
          rw [load_ams_cons_specFalse env n p rest st hmf hex hs]
          exact ⟨Nat.le_refl _, fun n _ => rfl, fun i _ => rfl,
                 [Ev.resolve n, Ev.checkExists p], rfl⟩
        | true =>
          cases he : env.execOk n p with
          | false =>
            rw [load_ams_cons_execFalse env n p rest st hmf hex hs he]
            refine ⟨Nat.le_succ _, fun n₂ hn₂ => ?_, fun i hi => ?_, _, rfl⟩
            · have hne : n₂ ≠ n := by
                intro hc
                exact hn₂ (hc ▸ List.mem_cons_self n rest)
              exact aLookup_cons_ne n₂ n _ _ hne
            · have hne : i ≠ st.nextId := Nat.ne_of_lt hi
              exact aLookup_cons_ne i st.nextId _ _ hne
          | true =>
            rw [load_ams_cons_good env n p rest st hmf hex hs he]
            obtain ⟨h1, h2, h3, tr, h4⟩ := ih (afterLoad env n p st)
            refine ⟨?_, fun n₂ hn₂ => ?_, fun i hi => ?_, ?_⟩
            · exact Nat.le_trans (Nat.le_succ _) h1
            · have hn₂r : n₂ ∉ rest := fun hc => hn₂ (List.mem_cons_of_mem n hc)
              have hne : n₂ ≠ n := by
                intro hc
                exact hn₂ (hc ▸ List.mem_cons_self n rest)
              rw [h2 n₂ hn₂r]
              exact aLookup_cons_ne n₂ n _ _ hne
            · have hi₂ : i < (afterLoad env n p st).nextId := Nat.lt_succ_of_lt hi
              rw [h3 i hi₂]
              have hne : i ≠ st.nextId := Nat.ne_of_lt hi
              rw [afterLoad]
              rw [aLookup_cons_ne i st.nextId _ _ hne]
              exact aLookup_cons_ne i st.nextId _ _ hne
            · refine ⟨[Ev.resolve n, Ev.checkExists p, Ev.register n st.nextId,
                       Ev.execStart n, Ev.execDone n] ++ tr, ?_⟩
              rw [h4]
              simp [afterLoad]

/-- After a successful run, every manifest name is bound in the registry to
a module object allocated during (or after the start of) the run, fully
executed, whose provenance is the resolved bundle path and whose
load_config attribute is what the bundled body defined. -/
theorem load_ams_registered (env : Env) (names : List String) :
    ∀ (st : St) (l : List (String × Nat)) (st₂ : St),
      _load_ams_modules env names st = (Except.ok l, st₂) →
      ∀ x ∈ names, ∃ mid p,
        st.nextId ≤ mid ∧
        _module_filename env.bundleRoot x = some p ∧
        aLookup x st₂.sysModules = some mid ∧
        aLookup mid st₂.heap =
          some { name := x, file := p, executed := true,
                 load_config_fn := env.moduleDef x p } := by
  induction names with
  | nil =>
    intro st l st₂ h x hx
    exact absurd hx (List.not_mem_nil x)
  | cons n rest ih =>
    intro st l st₂ h x hx
    obtain ⟨p, l₂, hmf, hex, hs, he, hl, hrest⟩ :=
      load_ams_cons_ok_inv env n rest st l st₂ h
    by_cases hxr : x ∈ rest
    · obtain ⟨mid, q, hmid, hq, hsys, hheap⟩ := ih (afterLoad env n p st) l₂ st₂ hrest x hxr
      exact ⟨mid, q, Nat.le_trans (Nat.le_succ _) hmid, hq, hsys, hheap⟩
    · have hxn : x = n := by
        rcases List.mem_cons.mp hx with h₁ | h₁
        · exact h₁
        · exact absurd h₁ hxr
      subst hxn
      obtain ⟨_, h2, h3, _⟩ := load_ams_frame env rest (afterLoad env x p st)
      rw [hrest] at h2 h3
      refine ⟨st.nextId, p, Nat.le_refl _, hmf, ?_, ?_⟩
      · rw [h2 x hxr]
        exact aLookup_cons_self x st.nextId _
      · have hlt : st.nextId < (afterLoad env x p st).nextId := Nat.lt_succ_self _
        rw [h3 st.nextId hlt]
        exact aLookup_cons_self st.nextId _ _

/-- After a successful run the trace grows by exactly the per-entry event
blocks in manifest order, and the id counter advances by the number of
entries. -/
theorem load_ams_trace (env : Env) (names : List String) :
    ∀ (st : St) (l : List (String × Nat)) (st₂ : St),
      _load_ams_modules env names st = (Except.ok l, st₂) →
      st₂.trace = st.trace ++ eventsFor env st.nextId names ∧
      st₂.nextId = st.nextId + names.length := by
  induction names with
  | nil =>
    intro st l st₂ h
    rw [load_ams_nil] at h
    simp only [Prod.mk.injEq] at h
    rw [← h.2]
    simp [eventsFor]
  | cons n rest ih =>
    intro st l st₂ h
    obtain ⟨p, l₂, hmf, hex, hs, he, hl, hrest⟩ :=
      load_ams_cons_ok_inv env n rest st l st₂ h
    obtain ⟨htr, hid⟩ := ih (afterLoad env n p st) l₂ st₂ hrest
    constructor
    · rw [htr]
      have : (afterLoad env n p st).nextId = st.nextId + 1 := rfl
      rw [this]
      show (afterLoad env n p st).trace ++ eventsFor env (st.nextId + 1) rest =
        st.trace ++ eventsFor env st.nextId (n :: rest)
      rw [eventsFor, entryEvents, hmf]
      simp [afterLoad]
    · rw [hid]
      show (afterLoad env n p st).nextId + rest.length = st.nextId + (n :: rest).length
      simp [afterLoad, List.length_cons]
      omega

/-- A run over a concatenated manifest first fully processes the left part;
when that part succeeds, the right part continues from exactly the world the
left part produced. -/
theorem load_ams_append_ok (env : Env) (xs : List String) :
    ∀ (ys : List String) (st st₁ : St) (lx : List (String × Nat)),
      _load_ams_modules env xs st = (Except.ok lx, st₁) →
      _load_ams_modules env (xs ++ ys) st =
        ((_load_ams_modules env ys st₁).1.map (fun ly => lx ++ ly),
         (_load_ams_modules env ys st₁).2) := by
  induction xs with
  | nil =>
    intro ys st st₁ lx h
    rw [load_ams_nil] at h
    simp only [Prod.mk.injEq] at h
    obtain ⟨h1, h2⟩ := h
    have hlx : lx = [] := by
      cases h1
      rfl
    subst hlx
    subst h2
    rcases hr : _load_ams_modules env ys st with ⟨r, st₃⟩
    cases r <;> simp [Except.map, hr]
  | cons n xs₂ ih =>
    intro ys st st₁ lx h
    obtain ⟨p, l₂, hmf, hex, hs, he, hl, hrest⟩ :=
      load_ams_cons_ok_inv env n xs₂ st lx st₁ h
    have hstep := load_ams_cons_good env n p (xs₂ ++ ys) st hmf hex hs he
    rw [show (n :: xs₂) ++ ys = n :: (xs₂ ++ ys) from rfl, hstep]
    rw [ih ys (afterLoad env n p st) st₁ l₂ hrest]
    rcases hr : _load_ams_modules env ys st₁ with ⟨r, st₃⟩
    cases r with
    | ok ly =>
      simp [Except.map, hl]
    | error e =>
      simp [Except.map, hl]

theorem toList_append (a b : String) : (a ++ b).toList = a.toList ++ b.toList := by
  simp [String.toList, String.data_append]

theorem isPrefixOf_append_self (l t : List Char) : l.isPrefixOf (l ++ t) = true := by
  induction l with
  | nil => simp [List.isPrefixOf]
  | cons c cs ih => simpa [List.isPrefixOf] using ih

theorem occursIn_nil_pat (l : List Char) : occursIn [] l = true := by
  cases l with
  | nil => rfl
  | cons c t => rfl

theorem occursIn_here (pat b : List Char) : occursIn pat (pat ++ b) = true := by
  cases pat with
  | nil => exact occursIn_nil_pat ([] ++ b)
  | cons c cs =>
    show ((c :: cs).isPrefixOf (c :: (cs ++ b)) || occursIn (c :: cs) (cs ++ b)) = true
    rw [show c :: (cs ++ b) = (c :: cs) ++ b from rfl]
    rw [isPrefixOf_append_self]
    rfl

theorem occursIn_within (pat a b : List Char) : occursIn pat (a ++ (pat ++ b)) = true := by
  induction a with
  | nil =>
    rw [List.nil_append]
    exact occursIn_here pat b
  | cons c t ih =>
    cases pat with
    | nil => exact occursIn_nil_pat _
    | cons d ds =>
      show ((d :: ds).isPrefixOf _ || occursIn (d :: ds) (t ++ ((d :: ds) ++ b))) = true
      rw [ih]
      simp

theorem strContains_of_toList (s mid : String) (a b : List Char)
    (h : s.toList = a ++ (mid.toList ++ b)) : strContains s mid = true := by
  unfold strContains
  rw [h]
  exact occursIn_within mid.toList a b

theorem isPref_of_toList (pre s : String) (t : List Char)
    (h : s.toList = pre.toList ++ t) : pre.toList.isPrefixOf s.toList = true := by
  rw [h]
  exact isPrefixOf_append_self _ _

theorem dropWhile_of_contains (l : List Char) (h : l.contains '.' = true) :
    ∃ t, l.dropWhile (fun c => c ≠ '.') = '.' :: t := by
  induction l with
  | nil => simp at h
  | cons c cs ih =>
    by_cases hc : c = '.'
    · subst hc
      exact ⟨cs, by simp [List.dropWhile]⟩
    · have hcs : cs.contains '.' = true := by
        have hmem : '.' ∈ c :: cs := by simpa using h
        have : ('.' : Char) ∈ cs := by
          rcases List.mem_cons.mp hmem with h₁ | h₁
          · exact absurd h₁.symm hc
          · exact h₁
        simpa using this
      obtain ⟨t, ht⟩ := ih hcs
      refine ⟨t, ?_⟩
      simp only [List.dropWhile, hc, decide_not]
      simp only [decide_eq_false_iff_not] at *
      simp [hc]
      simpa using ht

theorem module_filename_shape (root n p : String)
    (h : _module_filename root n = some p) :
    ∃ s, p = root ++ "/" ++ s ++ ".py" := by
  unfold _module_filename at h
  rcases hq : (pySplit1 n '.')[1]? with _ | s
  · rw [hq] at h
    simp at h
  · rw [hq] at h
    simp only [Option.some.injEq] at h
    exact ⟨s, h.symm⟩

/-- Claim C5: for every logical name containing a separator, resolve-override-
path is deterministic and returns exactly the Bundle Root joined with the
portion of the name after the first separator plus the source extension:
the name splits as pre ++ period ++ post with no separator in pre, and the
result is root/post.py.  (Purity holds by construction: the embedding of
the function is a Lean function of its arguments with no state.) -/
theorem C5_module_filename_first_separator (root name : String)
    (h : name.toList.contains '.' = true) :
    ∃ preL postL : List Char,
      name.toList = preL ++ '.' :: postL ∧
      preL.contains '.' = false ∧
      _module_filename root name = some (root ++ "/" ++ String.mk postL ++ ".py") ∧
      ∀ name₂ : String, name₂ = name →
        _module_filename root name₂ = _module_filename root name := by
  obtain ⟨t, ht⟩ := dropWhile_of_contains name.toList h
  refine ⟨name.toList.takeWhile (fun c => c ≠ '.'), t, ?_, ?_, ?_, ?_⟩
  · conv_lhs => rw [← List.takeWhile_append_dropWhile (fun c => decide (c ≠ '.')) name.toList]
    rw [ht]
  · by_contra hc
    have hc₂ : ('.' : Char) ∈ name.toList.takeWhile (fun c => decide (c ≠ '.')) := by
      have := Bool.of_not_eq_false hc
      simpa using this
    have := List.mem_takeWhile_imp hc₂
    simp at this
  · unfold _module_filename pySplit1
    simp only [h, if_true]
    rw [ht]
    rfl
  · intro name₂ h₂
    rw [h₂]

/-- Claim C5 witness: instantiation at a concrete root and name. -/
theorem C5_witness :
    "extras.AFC".toList.contains '.' = true ∧
    (∃ preL postL : List Char,
      "extras.AFC".toList = preL ++ '.' :: postL ∧
      preL.contains '.' = false ∧
      _module_filename "/b" "extras.AFC" = some ("/b" ++ "/" ++ String.mk postL ++ ".py") ∧
      ∀ name₂ : String, name₂ = "extras.AFC" →
        _module_filename "/b" name₂ = _module_filename "/b" "extras.AFC") :=
  ⟨by decide, C5_module_filename_first_separator "/b" "extras.AFC" (by decide)⟩

/-- Claim C6: a successful load-and-register over a name that already had a
registry entry does not mutate the previously registered module object:
the new module is a fresh object, only the registry binding of that one
name changes, the heap cell of the old object is untouched, and so is
every other heap cell and registry binding. -/
theorem C6_old_module_object_unchanged (env : Env) (st : St) (name path : String)
    (oldMid mid : Nat) (st₂ : St)
    (hreg : aLookup name st.sysModules = some oldMid)
    (hwf : oldMid < st.nextId)
    (hload : _load_module env name path st = (Except.ok mid, st₂)) :
    mid ≠ oldMid ∧
    aLookup name st₂.sysModules = some mid ∧
    aLookup oldMid st₂.heap = aLookup oldMid st.heap ∧
    (∀ n, n ≠ name → aLookup n st₂.sysModules = aLookup n st.sysModules) ∧
    (∀ i, i ≠ mid → aLookup i st₂.heap = aLookup i st.heap) := by
  cases hs : env.specOk name path with
  | false =>
    rw [load_module_specFalse env name path st hs] at hload
    simp at hload
  | true =>
    cases he : env.execOk name path with
    | false =>
      rw [load_module_execFalse env name path st hs he] at hload
      simp at hload
    | true =>
      rw [load_module_ok env name path st hs he] at hload
      simp only [Prod.mk.injEq, Except.ok.injEq] at hload
      obtain ⟨hmid, hst⟩ := hload
      subst hmid
      subst hst
      refine ⟨Nat.ne_of_gt hwf, aLookup_cons_self name st.nextId _, ?_, ?_, ?_⟩
      · rw [aLookup_cons_ne oldMid st.nextId _ _ (Nat.ne_of_lt hwf)]
        rw [aLookup_cons_ne oldMid st.nextId _ _ (Nat.ne_of_lt hwf)]
      · intro n hn
        exact aLookup_cons_ne n name _ _ hn
      · intro i hi
        rw [aLookup_cons_ne i st.nextId _ _ hi]
        rw [aLookup_cons_ne i st.nextId _ _ hi]

/-- Claim C6 witness: reloading the primary name over a world that already
registers it from its original on-disk location. -/
theorem C6_witness :
    aLookup "extras.AFC" stPre.sysModules = some 0 ∧
    0 < stPre.nextId ∧
    (1 ≠ 0 ∧
     aLookup "extras.AFC"
       ((_load_module env₀ "extras.AFC" "/bundle/AFC.py" stPre).2).sysModules = some 1 ∧
     aLookup 0 ((_load_module env₀ "extras.AFC" "/bundle/AFC.py" stPre).2).heap =
       aLookup 0 stPre.heap ∧
     (∀ n, n ≠ "extras.AFC" →
       aLookup n ((_load_module env₀ "extras.AFC" "/bundle/AFC.py" stPre).2).sysModules =
         aLookup n stPre.sysModules) ∧
     (∀ i, i ≠ 1 →
       aLookup i ((_load_module env₀ "extras.AFC" "/bundle/AFC.py" stPre).2).heap =
         aLookup i stPre.heap)) :=
  ⟨by decide, by decide,
   C6_old_module_object_unchanged env₀ stPre "extras.AFC" "/bundle/AFC.py" 0 1
     ((_load_module env₀ "extras.AFC" "/bundle/AFC.py" stPre).2)
     (by decide) (by decide) (by rfl)⟩

/-- Claim C8: when the dynamic-loading facility cannot construct a loadable
unit (no spec) from the resolved path, load-and-register fails with an
import-time error whose message contains both the logical name and the path,
the world is returned unchanged, and in particular no execution event is
recorded (the module body never runs). -/
theorem C8_no_spec_import_error (env : Env) (name path : String) (st : St)
    (h : env.specOk name path = false) :
    _load_module env name path st =
      (Except.error ("Unable to create spec for " ++ name ++ " from " ++ path), st) ∧
    strContains ("Unable to create spec for " ++ name ++ " from " ++ path) name = true ∧
    strContains ("Unable to create spec for " ++ name ++ " from " ++ path) path = true ∧
    ((_load_module env name path st).2).trace = st.trace := by
  refine ⟨load_module_specFalse env name path st h, ?_, ?_, ?_⟩
  · apply strContains_of_toList _ _ "Unable to create spec for ".toList
      (" from ".toList ++ path.toList)
    simp [toList_append, List.append_assoc]
  · apply strContains_of_toList _ _
      ("Unable to create spec for ".toList ++ name.toList ++ " from ".toList) []
    simp [toList_append, List.append_assoc]
  · rw [load_module_specFalse env name path st h]

/-- Claim C8 witness: a concrete environment whose spec construction always
fails. -/
theorem C8_witness :
    envSpecFail.specOk "extras.AFC" "/bundle/AFC.py" = false ∧
    (_load_module envSpecFail "extras.AFC" "/bundle/AFC.py" St.empty =
      (Except.error ("Unable to create spec for " ++ "extras.AFC" ++ " from " ++
                     "/bundle/AFC.py"), St.empty) ∧
     strContains ("Unable to create spec for " ++ "extras.AFC" ++ " from " ++
                  "/bundle/AFC.py") "extras.AFC" = true ∧
     strContains ("Unable to create spec for " ++ "extras.AFC" ++ " from " ++
                  "/bundle/AFC.py") "/bundle/AFC.py" = true ∧
     ((_load_module envSpecFail "extras.AFC" "/bundle/AFC.py" St.empty).2).trace =
       St.empty.trace) :=
  ⟨by decide,
   C8_no_spec_import_error envSpecFail "extras.AFC" "/bundle/AFC.py" St.empty (by decide)⟩

/-- Claim C9: once a spec exists, load-and-register inserts the new module
into the registry before executing its body (the registration event
strictly precedes the execution event in the trace), and when execution
fails the registration is not rolled back: the registry still binds the
name to the new, unexecuted module object. -/
theorem C9_register_before_exec_no_rollback (env : Env) (name path : String) (st : St)
    (hs : env.specOk name path = true) :
    ((_load_module env name path st).2).trace =
      st.trace ++ [Ev.register name st.nextId, Ev.execStart name] ++
        (if env.execOk name path then [Ev.execDone name] else []) ∧
    aLookup name ((_load_module env name path st).2).sysModules = some st.nextId ∧
    (env.execOk name path = false →
      (_load_module env name path st).1 = Except.error (env.execErr name path) ∧
      aLookup st.nextId ((_load_module env name path st).2).heap =
        some { name := name, file := path, executed := false,
               load_config_fn := none }) := by
  cases he : env.execOk name path with
  | false =>
    rw [load_module_execFalse env name path st hs he]
    refine ⟨by simp, aLookup_cons_self name st.nextId _, fun _ => ⟨rfl, ?_⟩⟩
    exact aLookup_cons_self st.nextId _ _
  | true =>
    rw [load_module_ok env name path st hs he]
    refine ⟨by simp, aLookup_cons_self name st.nextId _, fun hc => ?_⟩
    exact absurd hc (by decide)

/-- Claim C9 witness: a concrete environment in which every body execution
raises, exercising the no-rollback branch. -/
theorem C9_witness :
    envExecFail.specOk "extras.AFC" "/bundle/AFC.py" = true ∧
    (((_load_module envExecFail "extras.AFC" "/bundle/AFC.py" St.empty).2).trace =
       St.empty.trace ++ [Ev.register "extras.AFC" St.empty.nextId,
                          Ev.execStart "extras.AFC"] ++
         (if envExecFail.execOk "extras.AFC" "/bundle/AFC.py"
          then [Ev.execDone "extras.AFC"] else []) ∧
     aLookup "extras.AFC"
       ((_load_module envExecFail "extras.AFC" "/bundle/AFC.py" St.empty).2).sysModules =
         some St.empty.nextId ∧
     (envExecFail.execOk "extras.AFC" "/bundle/AFC.py" = false →
       (_load_module envExecFail "extras.AFC" "/bundle/AFC.py" St.empty).1 =
         Except.error (envExecFail.execErr "extras.AFC" "/bundle/AFC.py") ∧
       aLookup St.empty.nextId
         ((_load_module envExecFail "extras.AFC" "/bundle/AFC.py" St.empty).2).heap =
           some { name := "extras.AFC", file := "/bundle/AFC.py", executed := false,
                  load_config_fn := none })) :=
  ⟨by decide,
   C9_register_before_exec_no_rollback envExecFail "extras.AFC" "/bundle/AFC.py"
     St.empty (by decide)⟩

/-- Claim C10: path resolution is partial — for a name with no separator the
indexing fails and no path is produced — while every name containing a
separator resolves, and every entry of the fixed manifest contains a
separator (each starts with the primary package segment), so the failing
branch is unreachable on the manifest. -/
theorem C10_module_filename_partiality (root : String) :
    (∀ name : String, name.toList.contains '.' = false →
       _module_filename root name = none) ∧
    (∀ name : String, name.toList.contains '.' = true →
       (_module_filename root name).isSome = true) ∧
    (∀ name ∈ _MODULE_ORDER,
       name.toList.contains '.' = true ∧
       "extras.".toList.isPrefixOf name.toList = true) := by
  refine ⟨?_, ?_, ?_⟩
  · intro name h
    have h₂ : ('.' : Char) ∉ name.data := by simpa using h
    unfold _module_filename pySplit1
    simp [h₂]
  · intro name h
    have h₂ : ('.' : Char) ∈ name.data := by simpa using h
    unfold _module_filename pySplit1
    simp [h₂]
  · decide

/-- Claim C10 witness: the dotless name yields no path, a dotted name yields
one, and a manifest entry is dotted. -/
theorem C10_witness :
    _module_filename "/b" "extras" = none ∧
    (_module_filename "/b" "extras.AFC").isSome = true ∧
    ("extras.AFC_utils".toList.contains '.' = true ∧
     "extras.".toList.isPrefixOf "extras.AFC_utils".toList = true) :=
  ⟨(C10_module_filename_partiality "/b").1 "extras" (by decide),
   (C10_module_filename_partiality "/b").2.1 "extras.AFC" (by decide),
   (C10_module_filename_partiality "/b").2.2 "extras.AFC_utils" (by decide)⟩

/-- Claim C1: when the import-time run of the loader over the fixed manifest
succeeds, every logical name of the manifest is bound in the process-wide
registry to a module object whose provenance is exactly the resolved file
under the Bundle Root (and so carries the bundle-root prefix), fully
executed — not the original on-disk module. -/
theorem C1_registry_loaded_from_bundle_root (env : Env) (st : St)
    (h : isOkE (_AMS_MODULES env st).1 = true) :
    ∀ name ∈ _MODULE_ORDER, ∃ mid md,
      aLookup name ((_AMS_MODULES env st).2).sysModules = some mid ∧
      aLookup mid ((_AMS_MODULES env st).2).heap = some md ∧
      md.name = name ∧ md.executed = true ∧
      _module_filename env.bundleRoot name = some md.file ∧
      (env.bundleRoot ++ "/").toList.isPrefixOf md.file.toList = true := by
  obtain ⟨l, hl⟩ := isOkE_ex _ h
  have hpair : _load_ams_modules env _MODULE_ORDER st =
      (Except.ok l, (_AMS_MODULES env st).2) := by
    show _AMS_MODULES env st = (Except.ok l, (_AMS_MODULES env st).2)
    rw [← hl]
  intro name hname
  obtain ⟨mid, p, _, hq, hsys, hheap⟩ :=
    load_ams_registered env _MODULE_ORDER st l _ hpair name hname
  refine ⟨mid, _, hsys, hheap, rfl, rfl, hq, ?_⟩
  obtain ⟨s, hp⟩ := module_filename_shape env.bundleRoot name p hq
  apply isPref_of_toList _ _ (s.toList ++ ".py".toList)
  rw [hp]
  simp [toList_append, List.append_assoc]

/-- Claim C1 witness: concrete run over the full manifest in a well-behaved
environment. -/
theorem C1_witness :
    isOkE (_AMS_MODULES env₀ St.empty).1 = true ∧
    (∀ name ∈ _MODULE_ORDER, ∃ mid md,
      aLookup name ((_AMS_MODULES env₀ St.empty).2).sysModules = some mid ∧
      aLookup mid ((_AMS_MODULES env₀ St.empty).2).heap = some md ∧
      md.name = name ∧ md.executed = true ∧
      _module_filename env₀.bundleRoot name = some md.file ∧
      (env₀.bundleRoot ++ "/").toList.isPrefixOf md.file.toList = true) :=
  ⟨by decide, C1_registry_loaded_from_bundle_root env₀ St.empty (by decide)⟩

/-- Claim C2: with every manifest entry before position k loading cleanly and
the bundle file of the entry at position k absent, the run raises exactly
the missing-override error, whose message contains that entry's logical
name and the expected path; every earlier entry is already loaded and
registered (executed, with bundle provenance), while no name outside the
earlier entries is newly bound and exactly the earlier entries' module
objects were allocated (fail-fast, no partial-continue past the failure). -/
theorem C2_missing_override_fail_fast (env : Env) (st : St)
    (xs ys : List String) (nk p : String)
    (hbefore : ∀ x ∈ xs, goodEntry env x = true)
    (hres : _module_filename env.bundleRoot nk = some p)
    (hmiss : env.fileExists p = false) :
    (_load_ams_modules env (xs ++ nk :: ys) st).1 =
      Except.error ("Missing AMS override for " ++ nk ++ " at " ++ p) ∧
    strContains ("Missing AMS override for " ++ nk ++ " at " ++ p) nk = true ∧
    strContains ("Missing AMS override for " ++ nk ++ " at " ++ p) p = true ∧
    (∀ x ∈ xs, ∃ mid q md,
      _module_filename env.bundleRoot x = some q ∧
      aLookup x ((_load_ams_modules env (xs ++ nk :: ys) st).2).sysModules = some mid ∧
      aLookup mid ((_load_ams_modules env (xs ++ nk :: ys) st).2).heap = some md ∧
      md.executed = true ∧ md.file = q) ∧
    (∀ n, n ∉ xs →
      aLookup n ((_load_ams_modules env (xs ++ nk :: ys) st).2).sysModules =
        aLookup n st.sysModules) ∧
    ((_load_ams_modules env (xs ++ nk :: ys) st).2).nextId = st.nextId + xs.length := by
  have hok : isOkE (_load_ams_modules env xs st).1 = true :=
    (load_ams_ok_iff env xs st).mpr hbefore
  obtain ⟨lx, hlx⟩ := isOkE_ex _ hok
  have hxs : _load_ams_modules env xs st =
      (Except.ok lx, (_load_ams_modules env xs st).2) := by
    rw [← hlx]
  have happ := load_ams_append_ok env xs (nk :: ys) st
    ((_load_ams_modules env xs st).2) lx hxs
  have hstep := load_ams_cons_missing env nk p ys ((_load_ams_modules env xs st).2)
    hres hmiss
  rw [hstep] at happ
  have hfull1 : (_load_ams_modules env (xs ++ nk :: ys) st).1 =
      Except.error ("Missing AMS override for " ++ nk ++ " at " ++ p) := by
    rw [happ]
    rfl
  have hsys2 : ((_load_ams_modules env (xs ++ nk :: ys) st).2).sysModules =
      ((_load_ams_modules env xs st).2).sysModules := by
    rw [happ]
  have hheap2 : ((_load_ams_modules env (xs ++ nk :: ys) st).2).heap =
      ((_load_ams_modules env xs st).2).heap := by
    rw [happ]
  have hid2 : ((_load_ams_modules env (xs ++ nk :: ys) st).2).nextId =
      ((_load_ams_modules env xs st).2).nextId := by
    rw [happ]
  have htr := load_ams_trace env xs st lx ((_load_ams_modules env xs st).2) hxs
  obtain ⟨_, hframe2, _, _⟩ := load_ams_frame env xs st
  refine ⟨hfull1, ?_, ?_, ?_, ?_, ?_⟩
  · apply strContains_of_toList _ _ "Missing AMS override for ".toList
      (" at ".toList ++ p.toList)
    simp [toList_append, List.append_assoc]
  · apply strContains_of_toList _ _
      ("Missing AMS override for ".toList ++ nk.toList ++ " at ".toList) []
    simp [toList_append, List.append_assoc]
  · intro x hx
    obtain ⟨mid, q, _, hq, hsys, hheap⟩ :=
      load_ams_registered env xs st lx _ hxs x hx
    refine ⟨mid, q,
      { name := x, file := q, executed := true,
        load_config_fn := env.moduleDef x q }, hq, ?_, ?_, rfl, rfl⟩
    · rw [hsys2]
      exact hsys
    · rw [hheap2]
      exact hheap
  · intro n hn
    rw [hsys2]
    exact hframe2 n hn
  · rw [hid2]
    exact htr.2

/-- Claim C2 witness: a two-entry manifest whose second bundle file is
missing, after one cleanly loading entry. -/
theorem C2_witness :
    (∀ x ∈ ["extras.AFC_utils"], goodEntry envMissing x = true) ∧
    _module_filename envMissing.bundleRoot "extras.AFC" = some "/bundle/AFC.py" ∧
    envMissing.fileExists "/bundle/AFC.py" = false ∧
    ((_load_ams_modules envMissing
        (["extras.AFC_utils"] ++ "extras.AFC" :: ["extras.AFC_error"]) St.empty).1 =
      Except.error ("Missing AMS override for " ++ "extras.AFC" ++ " at " ++
                    "/bundle/AFC.py") ∧
     strContains ("Missing AMS override for " ++ "extras.AFC" ++ " at " ++
                  "/bundle/AFC.py") "extras.AFC" = true ∧
     strContains ("Missing AMS override for " ++ "extras.AFC" ++ " at " ++
                  "/bundle/AFC.py") "/bundle/AFC.py" = true ∧
     (∀ x ∈ ["extras.AFC_utils"], ∃ mid q md,
       _module_filename envMissing.bundleRoot x = some q ∧
       aLookup x ((_load_ams_modules envMissing
         (["extras.AFC_utils"] ++ "extras.AFC" :: ["extras.AFC_error"])
         St.empty).2).sysModules = some mid ∧
       aLookup mid ((_load_ams_modules envMissing
         (["extras.AFC_utils"] ++ "extras.AFC" :: ["extras.AFC_error"])
         St.empty).2).heap = some md ∧
       md.executed = true ∧ md.file = q) ∧
     (∀ n, n ∉ ["extras.AFC_utils"] →
       aLookup n ((_load_ams_modules envMissing
         (["extras.AFC_utils"] ++ "extras.AFC" :: ["extras.AFC_error"])
         St.empty).2).sysModules = aLookup n St.empty.sysModules) ∧
     ((_load_ams_modules envMissing
         (["extras.AFC_utils"] ++ "extras.AFC" :: ["extras.AFC_error"])
         St.empty).2).nextId = St.empty.nextId + ["extras.AFC_utils"].length) :=
  ⟨by decide, by decide, by decide,
   C2_missing_override_fail_fast envMissing St.empty
     ["extras.AFC_utils"] ["extras.AFC_error"] "extras.AFC" "/bundle/AFC.py"
     (by decide) (by decide) (by decide)⟩

/-- Claim C3: the loader processes the manifest strictly sequentially in
declared order: on a successful run over xs ++ y :: ys, the prefix xs is
fully processed first, producing the intermediate world from which y and
the remaining entries continue; every entry of xs is already registered and
executed in that world before y is resolved (so a later override can
observe an earlier one in the registry); and the trace is the concatenation
of the per-entry event blocks of xs followed by those of y :: ys. -/
theorem C3_strict_sequential_order (env : Env) (st : St)
    (xs ys : List String) (y : String)
    (hok : isOkE (_load_ams_modules env (xs ++ y :: ys) st).1 = true) :
    ∃ lx ly st₁ st₂,
      _load_ams_modules env xs st = (Except.ok lx, st₁) ∧
      _load_ams_modules env (y :: ys) st₁ = (Except.ok ly, st₂) ∧
      _load_ams_modules env (xs ++ y :: ys) st = (Except.ok (lx ++ ly), st₂) ∧
      (∀ x ∈ xs, ∃ mid md,
        aLookup x st₁.sysModules = some mid ∧
        aLookup mid st₁.heap = some md ∧ md.name = x ∧ md.executed = true) ∧
      st₁.trace = st.trace ++ eventsFor env st.nextId xs ∧
      st₂.trace = st.trace ++ eventsFor env st.nextId xs ++
        eventsFor env st₁.nextId (y :: ys) := by
  have hall := (load_ams_ok_iff env (xs ++ y :: ys) st).mp hok
  have hxsgood : ∀ n ∈ xs, goodEntry env n = true := fun n hn =>
    hall n (List.mem_append_left _ hn)
  have hysgood : ∀ n ∈ y :: ys, goodEntry env n = true := fun n hn =>
    hall n (List.mem_append_right _ hn)
  obtain ⟨lx, hlx⟩ := isOkE_ex _ ((load_ams_ok_iff env xs st).mpr hxsgood)
  have hxs : _load_ams_modules env xs st =
      (Except.ok lx, (_load_ams_modules env xs st).2) := by
    rw [← hlx]
  obtain ⟨ly, hly⟩ := isOkE_ex _
    ((load_ams_ok_iff env (y :: ys) ((_load_ams_modules env xs st).2)).mpr hysgood)
  have hys : _load_ams_modules env (y :: ys) ((_load_ams_modules env xs st).2) =
      (Except.ok ly,
       (_load_ams_modules env (y :: ys) ((_load_ams_modules env xs st).2)).2) := by
    rw [← hly]
  have happ := load_ams_append_ok env xs (y :: ys) st
    ((_load_ams_modules env xs st).2) lx hxs
  rw [hys] at happ
  have htr₁ := load_ams_trace env xs st lx ((_load_ams_modules env xs st).2) hxs
  have htr₂ := load_ams_trace env (y :: ys) ((_load_ams_modules env xs st).2) ly
    ((_load_ams_modules env (y :: ys) ((_load_ams_modules env xs st).2)).2) hys
  refine ⟨lx, ly, (_load_ams_modules env xs st).2,
    (_load_ams_modules env (y :: ys) ((_load_ams_modules env xs st).2)).2,
    hxs, hys, ?_, ?_, htr₁.1, ?_⟩
  · rw [happ]
    rfl
  · intro x hx
    obtain ⟨mid, q, _, _, hsys, hheap⟩ :=
      load_ams_registered env xs st lx _ hxs x hx
    exact ⟨mid, _, hsys, hheap, rfl, rfl⟩
  · rw [htr₂.1, htr₁.1]

/-- Claim C3 witness: a two-entry split manifest in a well-behaved
environment. -/
theorem C3_witness :
    isOkE (_load_ams_modules env₀
      (["extras.AFC_utils"] ++ "extras.AFC" :: []) St.empty).1 = true ∧
    (∃ lx ly st₁ st₂,
      _load_ams_modules env₀ ["extras.AFC_utils"] St.empty = (Except.ok lx, st₁) ∧
      _load_ams_modules env₀ ("extras.AFC" :: []) st₁ = (Except.ok ly, st₂) ∧
      _load_ams_modules env₀ (["extras.AFC_utils"] ++ "extras.AFC" :: []) St.empty =
        (Except.ok (lx ++ ly), st₂) ∧
      (∀ x ∈ ["extras.AFC_utils"], ∃ mid md,
        aLookup x st₁.sysModules = some mid ∧
        aLookup mid st₁.heap = some md ∧ md.name = x ∧ md.executed = true) ∧
      st₁.trace = St.empty.trace ++ eventsFor env₀ St.empty.nextId ["extras.AFC_utils"] ∧
      st₂.trace = St.empty.trace ++ eventsFor env₀ St.empty.nextId ["extras.AFC_utils"] ++
        eventsFor env₀ st₁.nextId ("extras.AFC" :: [])) :=
  ⟨by decide,
   C3_strict_sequential_order env₀ St.empty ["extras.AFC_utils"] [] "extras.AFC"
     (by decide)⟩

/-- Claim C4: after successful initialization (the manifest run succeeds and
the re-export import resolves), the exported load_config is a pure
pass-through: for every configuration argument it forwards that argument to
the load_config function of the bundle-loaded override registered under the
primary name and returns that function's result verbatim. -/
theorem C4_load_config_pass_through (env : Env) (st : St)
    (h : isOkE (_AMS_MODULES env st).1 = true)
    (h₂ : (_ams_load_config env st).isSome = true) :
    ∃ mid md f,
      aLookup "extras.AFC" ((_AMS_MODULES env st).2).sysModules = some mid ∧
      aLookup mid ((_AMS_MODULES env st).2).heap = some md ∧
      md.file = env.bundleRoot ++ "/" ++ "AFC" ++ ".py" ∧
      md.executed = true ∧
      md.load_config_fn = some f ∧
      ∀ config : Nat, load_config env st config = some (f config) := by
  obtain ⟨l, hl⟩ := isOkE_ex _ h
  have hpair : _load_ams_modules env _MODULE_ORDER st =
      (Except.ok l, (_AMS_MODULES env st).2) := by
    show _AMS_MODULES env st = (Except.ok l, (_AMS_MODULES env st).2)
    rw [← hl]
  have hmem : "extras.AFC" ∈ _MODULE_ORDER := by decide
  obtain ⟨mid, p, _, hq, hsys, hheap⟩ :=
    load_ams_registered env _MODULE_ORDER st l _ hpair "extras.AFC" hmem
  have hpbundle : _module_filename env.bundleRoot "extras.AFC" =
      some (env.bundleRoot ++ "/" ++ "AFC" ++ ".py") := rfl
  rw [hpbundle] at hq
  have hp : p = env.bundleRoot ++ "/" ++ "AFC" ++ ".py" := by
    injection hq with hq₂
    exact hq₂.symm
  have hcfg : _ams_load_config env st = env.moduleDef "extras.AFC" p := by
    have hstep : _ams_load_config env st =
        (match aLookup mid ((_AMS_MODULES env st).2).heap with
         | none => none
         | some md => md.load_config_fn) := by
      show (match aLookup "extras.AFC" ((_AMS_MODULES env st).2).sysModules with
            | none => none
            | some mid =>
              match aLookup mid ((_AMS_MODULES env st).2).heap with
              | none => none
              | some md => md.load_config_fn) =
        (match aLookup mid ((_AMS_MODULES env st).2).heap with
         | none => none
         | some md => md.load_config_fn)
      rw [hsys]
    rw [hstep, hheap]
  rw [hcfg] at h₂
  obtain ⟨f, hf⟩ := Option.isSome_iff_exists.mp h₂
  refine ⟨mid,
    { name := "extras.AFC", file := p, executed := true,
      load_config_fn := env.moduleDef "extras.AFC" p },
    f, hsys, hheap, hp, rfl, hf, fun config => ?_⟩
  show (_ams_load_config env st).map (fun g => g config) = some (f config)
  rw [hcfg, hf]
  rfl

/-- Claim C4 witness: the bundled primary override defines the doubling
function, and the exported proxy applied to 5 returns 10. -/
theorem C4_witness :
    isOkE (_AMS_MODULES env₀ St.empty).1 = true ∧
    (_ams_load_config env₀ St.empty).isSome = true ∧
    load_config env₀ St.empty 5 = some 10 ∧
    (∃ mid md f,
      aLookup "extras.AFC" ((_AMS_MODULES env₀ St.empty).2).sysModules = some mid ∧
      aLookup mid ((_AMS_MODULES env₀ St.empty).2).heap = some md ∧
      md.file = env₀.bundleRoot ++ "/" ++ "AFC" ++ ".py" ∧
      md.executed = true ∧
      md.load_config_fn = some f ∧
      ∀ config : Nat, load_config env₀ St.empty config = some (f config)) :=
  ⟨by decide, by decide, by decide,
   C4_load_config_pass_through env₀ St.empty (by decide) (by decide)⟩

/-- Claim C7: from the world a successful initialization produced, re-running
initialization over the same manifest raises no error; each manifest name is
simply overwritten with a freshly allocated, fully executed module object
(last-write-wins), and a name is registered after the second run exactly
when it was registered after the first. -/
theorem C7_rerun_overwrites_without_error (env : Env) (st : St)
    (h : isOkE (_AMS_MODULES env st).1 = true) :
    isOkE (_AMS_MODULES env ((_AMS_MODULES env st).2)).1 = true ∧
    (∀ name ∈ _MODULE_ORDER, ∃ mid₂ md,
      aLookup name
        ((_AMS_MODULES env ((_AMS_MODULES env st).2)).2).sysModules = some mid₂ ∧
      ((_AMS_MODULES env st).2).nextId ≤ mid₂ ∧
      aLookup mid₂ ((_AMS_MODULES env ((_AMS_MODULES env st).2)).2).heap = some md ∧
      md.name = name ∧ md.executed = true) ∧
    (∀ n, (aLookup n
        ((_AMS_MODULES env ((_AMS_MODULES env st).2)).2).sysModules).isSome =
      (aLookup n ((_AMS_MODULES env st).2).sysModules).isSome) := by
  have hgood := (load_ams_ok_iff env _MODULE_ORDER st).mp h
  have h₂ : isOkE (_AMS_MODULES env ((_AMS_MODULES env st).2)).1 = true :=
    (load_ams_ok_iff env _MODULE_ORDER ((_AMS_MODULES env st).2)).mpr hgood
  obtain ⟨l₂, hl₂⟩ := isOkE_ex _ h₂
  have hpair₂ : _load_ams_modules env _MODULE_ORDER ((_AMS_MODULES env st).2) =
      (Except.ok l₂, (_AMS_MODULES env ((_AMS_MODULES env st).2)).2) := by
    show _AMS_MODULES env ((_AMS_MODULES env st).2) =
      (Except.ok l₂, (_AMS_MODULES env ((_AMS_MODULES env st).2)).2)
    rw [← hl₂]
  obtain ⟨l₁, hl₁⟩ := isOkE_ex _ h
  have hpair₁ : _load_ams_modules env _MODULE_ORDER st =
      (Except.ok l₁, (_AMS_MODULES env st).2) := by
    show _AMS_MODULES env st = (Except.ok l₁, (_AMS_MODULES env st).2)
    rw [← hl₁]
  refine ⟨h₂, ?_, ?_⟩
  · intro name hname
    obtain ⟨mid₂, q, hle, _, hsys, hheap⟩ :=
      load_ams_registered env _MODULE_ORDER ((_AMS_MODULES env st).2) l₂ _
        hpair₂ name hname
    exact ⟨mid₂, _, hsys, hle, hheap, rfl, rfl⟩
  · intro n
    by_cases hn : n ∈ _MODULE_ORDER
    · obtain ⟨mid₂, _, _, _, hsys₂, _⟩ :=
        load_ams_registered env _MODULE_ORDER ((_AMS_MODULES env st).2) l₂ _
          hpair₂ n hn
      obtain ⟨mid₁, _, _, _, hsys₁, _⟩ :=
        load_ams_registered env _MODULE_ORDER st l₁ _ hpair₁ n hn
      rw [hsys₂, hsys₁]
      rfl
    · obtain ⟨_, hframe₂, _, _⟩ :=
        load_ams_frame env _MODULE_ORDER ((_AMS_MODULES env st).2)
      rw [show ((_AMS_MODULES env ((_AMS_MODULES env st).2)).2).sysModules =
        ((_load_ams_modules env _MODULE_ORDER ((_AMS_MODULES env st).2)).2).sysModules
        from rfl]
      rw [hframe₂ n hn]

/-- Claim C7 witness: the double run over the fixed manifest in a
well-behaved environment. -/
theorem C7_witness :
    isOkE (_AMS_MODULES env₀ St.empty).1 = true ∧
    (isOkE (_AMS_MODULES env₀ ((_AMS_MODULES env₀ St.empty).2)).1 = true ∧
     (∀ name ∈ _MODULE_ORDER, ∃ mid₂ md,
       aLookup name
         ((_AMS_MODULES env₀ ((_AMS_MODULES env₀ St.empty).2)).2).sysModules =
           some mid₂ ∧
       ((_AMS_MODULES env₀ St.empty).2).nextId ≤ mid₂ ∧
       aLookup mid₂
         ((_AMS_MODULES env₀ ((_AMS_MODULES env₀ St.empty).2)).2).heap = some md ∧
       md.name = name ∧ md.executed = true) ∧
     (∀ n, (aLookup n
         ((_AMS_MODULES env₀ ((_AMS_MODULES env₀ St.empty).2)).2).sysModules).isSome =
       (aLookup n ((_AMS_MODULES env₀ St.empty).2).sysModules).isSome)) :=
  ⟨by decide, C7_rerun_overwrites_without_error env₀ St.empty (by decide)⟩

end AFCAMS
